import Mathlib

/-!
Shallow embedding of the `poop` Hadoop-streaming framework (src/poop.py),
covering the chain builder (`makejoblist`), the streaming protocol engine
(`PoopRunner.itermap` / `iterreduce` / `stream_encode` / `stream_decode`),
the map-phase driver in `run`, the command synthesizer (`PoopJob.submit` /
`PoopJob._proc_args`) and the sequential orchestration loop of `main`.

Python strings are modelled as Lean `String` (byte-for-byte text; the exact
collation of the order on `String` is irrelevant to the properties proved:
only totality, transitivity and antisymmetry are used).  Fallible Python
code (attribute lookups that can raise `AttributeError`, unbound names that
raise `NameError`, out-of-range indexing that raises `IndexError`) is
modelled with `Except` / `Option`.
-/

/-- A Python exception surfaced by the embedded code. -/
inductive PyErr where
  /-- The `OptionValueError` raised when the Hadoop home does not exist
  (src/poop.py lines 138-140). -/
  | optionValueError (msg : String)
  /-- The `NameError` raised on lookup of an unbound name. -/
  | nameError (name : String)
  /-- The `AttributeError` raised on lookup of a missing attribute. -/
  | attributeError (name : String)
  /-- The `IndexError` raised on out-of-range sequence indexing. -/
  | indexError
  deriving Repr, DecidableEq

/-! ### Records of the streaming protocol

`PoopRunner.stream_decode` (src/poop.py lines 205-207) splits each line at
the first tab only: `input.split(u"\t", 1)`.  The result is a list of one
field (no tab in the line) or two fields (everything after the first tab is
the second field).  A record is therefore a key together with an optional
value field. -/

/-- A decoded record: first field (the key) and the optional second field.
`none` models a one-element Python list (a line with no tab), for which
`v[1]` raises `IndexError`. -/
abbrev Rec := String × Option String

/-- Model of `l.split(u"\t", 1)` on the character list of a line: the part before the
first tab, and (when a tab occurs) everything after it. -/
def splitFirstTab : List Char → List Char × Option (List Char)
  | [] => ([], none)
  | c :: cs =>
    if c = '\t' then ([], some cs)
    else
      let p := splitFirstTab cs
      (c :: p.1, p.2)

/-- Model of `PoopRunner.stream_decode` on one line (src/poop.py lines 205-207):
`input.split(u"\t", 1)`. -/
def stream_decode (line : String) : Rec :=
  let p := splitFirstTab line.data
  (String.mk p.1, p.2.map String.mk)

/-- Model of `PoopRunner.stream_encode` on one decoded record (src/poop.py lines
201-203): `u"\t".join(map(unicode, line))` where `line` is the one- or
two-element field list. -/
def stream_encode_rec : Rec → String
  | (k, none) => k
  | (k, some v) => k ++ "\t" ++ v

/-- Model of `PoopRunner.stream_encode` over a stream of (key, value) pairs, the
shape produced by map/combine/reduce functions (src/poop.py lines 201-203).
-/
def stream_encode (l : List (String × String)) : List String :=
  l.map fun p => p.1 ++ "\t" ++ p.2

/-! ### Grouping (`itertools.groupby`) and `iterreduce` -/

/-- Model of `itertools.groupby(data, itemgetter(0))` over a materialised record
list: maximal runs of records with equal (consecutive) first field, each
run reduced to its key and the list of its second fields in input order
(src/poop.py line 197). -/
def groupRuns : List Rec → List (String × List (Option String))
  | [] => []
  | (k, v) :: rest =>
    match groupRuns rest with
    | [] => [(k, [v])]
    | (k2, vs) :: gs =>
      if k = k2 then (k, v :: vs) :: gs else (k, [v]) :: (k2, vs) :: gs

/-- The generator `(v[1] for v in values)` fully consumed (src/poop.py line
198): `none` when some record has no second field, in which case `v[1]`
raises `IndexError`. -/
def seqValues : List (Option String) → Option (List String)
  | [] => some []
  | none :: _ => none
  | some v :: vs => (seqValues vs).map (v :: ·)

/-- Invoke the reducer once per group, concatenating its outputs in group
order (the inner loop of `PoopRunner.iterreduce`, src/poop.py lines
197-199).  The whole computation fails when a consumed group contains a
one-field record. -/
def applyGroups (gs : List (String × List (Option String)))
    (reducer : String → List String → List (String × String)) :
    Option (List (String × String)) :=
  match gs with
  | [] => some []
  | g :: rest =>
    match seqValues g.2 with
    | none => none
    | some vals =>
      match applyGroups rest reducer with
      | none => none
      | some tail => some (reducer g.1 vals ++ tail)

/-- Model of `PoopRunner.iterreduce` (src/poop.py lines 193-199) over a materialised
record list: group the data by key with `itertools.groupby(data,
itemgetter(0))`, then pass each group's key and value sequence to the
reducer.  The model is strict: it assumes the reducer consumes its value
sequence (as both reducers of the repository do via `sum(map(int, vals))`),
so a one-field record in a consumed group fails the phase with the
`IndexError` that `v[1]` raises. -/
def iterreduce (data : List Rec)
    (reducer : String → List String → List (String × String)) :
    Option (List (String × String)) :=
  applyGroups (groupRuns data) reducer

/-- View a list of (key, value) pairs — the shape of buffered map output
fed to the combiner, `sorted(out)` in src/poop.py line 229 — as records. -/
def toRecords (l : List (String × String)) : List Rec :=
  l.map fun p => (p.1, some p.2)

/-- Flatten a group list back to the record stream it came from. -/
def joinGroups (gs : List (String × List (Option String))) : List Rec :=
  gs.flatMap fun g => g.2.map fun v => (g.1, v)

/-! ### Basic facts about `groupRuns` -/

theorem joinGroups_groupRuns (data : List Rec) :
    joinGroups (groupRuns data) = data := by
  induction data with
  | nil => rfl
  | cons r rest ih =>
    obtain ⟨k, v⟩ := r
    simp only [groupRuns]
    cases h : groupRuns rest with
    | nil =>
      simp only [h] at ih
      simp [joinGroups, ← ih]
    | cons g gs =>
      obtain ⟨k2, vs⟩ := g
      simp only [h, joinGroups] at ih
      by_cases hk : k = k2
      · subst hk
        simp [joinGroups, ← ih]
      · simp [hk, joinGroups, ← ih]

theorem groupRuns_chain_ne (data : List Rec) :
    List.Chain' (fun g h => g.1 ≠ h.1) (groupRuns data) := by
  induction data with
  | nil => simp [groupRuns]
  | cons r rest ih =>
    obtain ⟨k, v⟩ := r
    simp only [groupRuns]
    cases h : groupRuns rest with
    | nil => simp
    | cons g gs =>
      obtain ⟨k2, vs⟩ := g
      rw [h] at ih
      by_cases hk : k = k2
      · subst hk
        simp only [eq_self_iff_true, if_true]
        cases gs with
        | nil => simp
        | cons g2 gs2 =>
          rw [List.chain'_cons] at ih ⊢
          exact ⟨ih.1, ih.2⟩
      · simp only [if_neg hk]
        rw [List.chain'_cons]
        exact ⟨hk, ih⟩

theorem mem_of_mem_groupRuns {data : List Rec} {g : String × List (Option String)}
    {v : Option String} (hg : g ∈ groupRuns data) (hv : v ∈ g.2) :
    (g.1, v) ∈ data := by
  rw [← joinGroups_groupRuns data]
  unfold joinGroups
  exact List.mem_flatMap.mpr ⟨g, hg, List.mem_map.mpr ⟨v, hv, rfl⟩⟩

theorem seqValues_of_forall_isSome {vs : List (Option String)}
    (h : ∀ v ∈ vs, Option.isSome v) : seqValues vs = some vs.reduceOption := by
  induction vs with
  | nil => rfl
  | cons v vs ih =>
    cases v with
    | none => simpa using h none (by simp)
    | some a =>
      simp only [seqValues, ih fun v hv => h v (List.mem_cons_of_mem _ hv)]
      simp [List.reduceOption]

theorem seqValues_of_mem_none {vs : List (Option String)} (h : none ∈ vs) :
    seqValues vs = none := by
  induction vs with
  | nil => simp at h
  | cons v vs ih =>
    cases v with
    | none => rfl
    | some a =>
      have : none ∈ vs := by simpa using h
      simp [seqValues, ih this]

theorem applyGroups_of_forall_isSome
    (gs : List (String × List (Option String)))
    (r : String → List String → List (String × String))
    (h : ∀ g ∈ gs, ∀ v ∈ g.2, Option.isSome v) :
    applyGroups gs r = some (gs.flatMap fun g => r g.1 g.2.reduceOption) := by
  induction gs with
  | nil => rfl
  | cons g gs ih =>
    have hg := seqValues_of_forall_isSome (h g (by simp))
    have hrest := ih fun g' hg' => h g' (List.mem_cons_of_mem _ hg')
    simp [applyGroups, hg, hrest]

theorem applyGroups_of_mem_none
    {gs : List (String × List (Option String))}
    {g : String × List (Option String)}
    (r : String → List String → List (String × String))
    (hg : g ∈ gs) (hv : none ∈ g.2) :
    applyGroups gs r = none := by
  induction gs with
  | nil => simp at hg
  | cons g0 gs ih =>
    rcases List.mem_cons.mp hg with h0 | h0
    · subst h0
      simp [applyGroups, seqValues_of_mem_none hv]
    · simp only [applyGroups]
      cases seqValues g0.2 with
      | none => rfl
      | some vals => simp [ih h0]

/-- On buffered (key, value) pairs — the only data the combine path feeds
to `iterreduce` — grouping never fails, and the reducer is invoked once per
maximal run, its outputs concatenated in run order. -/
theorem iterreduce_toRecords (l : List (String × String))
    (r : String → List String → List (String × String)) :
    iterreduce (toRecords l) r
      = some ((groupRuns (toRecords l)).flatMap fun g => r g.1 g.2.reduceOption) := by
  unfold iterreduce
  apply applyGroups_of_forall_isSome
  intro g hg v hv
  have hmem := mem_of_mem_groupRuns hg hv
  unfold toRecords at hmem
  rcases List.mem_map.mp hmem with ⟨p, _, hp⟩
  rw [Prod.ext_iff] at hp
  have h2 : some p.2 = v := hp.2
  rw [← h2]
  simp

theorem iterreduce_of_mem_none {data : List Rec} {k : String}
    (r : String → List String → List (String × String))
    (h : (k, none) ∈ data) : iterreduce data r = none := by
  unfold iterreduce
  conv at h => rw [← joinGroups_groupRuns data]
  unfold joinGroups at h
  rcases List.mem_flatMap.mp h with ⟨g, hg, hmem⟩
  rcases List.mem_map.mp hmem with ⟨v, hv, hveq⟩
  have : none ∈ g.2 := by
    cases hveq
    exact hv
  exact applyGroups_of_mem_none r hg this

/-! ### The map phase of `run` (src/poop.py lines 226-231)

When the stage has a `combiner`, the driver buffers all map output with
`sorted(out)` — Python's built-in sort on (key, value) tuples, i.e. the
lexicographic tuple order — and feeds the sorted list to `iterreduce`. -/

/-- Python tuple comparison on two (key, value) pairs of text:
lexicographic — first fields compared first, ties broken on the second. -/
def pairLe (p q : String × String) : Prop :=
  p.1 < q.1 ∨ (p.1 = q.1 ∧ p.2 ≤ q.2)

instance : DecidableRel pairLe := fun p q => by
  unfold pairLe
  infer_instance

instance : IsTotal (String × String) pairLe := by
  constructor
  intro p q
  rcases lt_trichotomy p.1 q.1 with h | h | h
  · exact Or.inl (Or.inl h)
  · rcases le_total p.2 q.2 with h2 | h2
    · exact Or.inl (Or.inr ⟨h, h2⟩)
    · exact Or.inr (Or.inr ⟨h.symm, h2⟩)
  · exact Or.inr (Or.inl h)

instance : IsTrans (String × String) pairLe := by
  constructor
  intro p q s hpq hqs
  rcases hpq with h1 | ⟨e1, l1⟩
  · rcases hqs with h2 | ⟨e2, l2⟩
    · exact Or.inl (h1.trans h2)
    · exact Or.inl (e2 ▸ h1)
  · rcases hqs with h2 | ⟨e2, l2⟩
    · exact Or.inl (e1 ▸ h2)
    · exact Or.inr ⟨e1.trans e2, l1.trans l2⟩

instance : IsAntisymm (String × String) pairLe := by
  constructor
  intro p q hpq hqp
  rcases hpq with h1 | ⟨e1, l1⟩
  · rcases hqp with h2 | ⟨e2, l2⟩
    · exact absurd (h1.trans h2) (lt_irrefl _)
    · exact absurd h1 (e2 ▸ lt_irrefl _)
  · rcases hqp with h2 | ⟨e2, l2⟩
    · exact absurd h2 (e1 ▸ lt_irrefl _)
    · exact Prod.ext e1 (le_antisymm l1 l2)

/-- Python's built-in `sorted` on a buffered list of (key, value) tuples
(src/poop.py line 229).  `sorted` is a stable sort under the lexicographic
tuple order; because that order is total and antisymmetric, the sorted
permutation is unique, so any correct sort gives the same list — we use
insertion sort, which evaluates by reduction. -/
def pySorted (l : List (String × String)) : List (String × String) :=
  List.insertionSort pairLe l

theorem pySorted_eq_of_perm {l1 l2 : List (String × String)}
    (h : l1.Perm l2) : pySorted l1 = pySorted l2 :=
  List.eq_of_perm_of_sorted
    ((List.perm_insertionSort pairLe l1).trans
      (h.trans (List.perm_insertionSort pairLe l2).symm))
    (List.sorted_insertionSort pairLe l1)
    (List.sorted_insertionSort pairLe l2)

/-- Model of `PoopRunner.itermap` (src/poop.py lines 185-191): run the map function
over the raw input lines in order — the key argument is always `None`, so
the mapper is modelled as a function of the line — and concatenate the
emitted (key, value) pairs in emission order. -/
def itermap (input : List String)
    (mapper : String → List (String × String)) : List (String × String) :=
  input.flatMap mapper

/-- The combine step of the map phase (src/poop.py line 229):
`run.iterreduce(sorted(out), instance.combiner)` on the fully buffered map
output `out`. -/
def combineStep (out : List (String × String))
    (combiner : String → List String → List (String × String)) :
    Option (List (String × String)) :=
  iterreduce (toRecords (pySorted out)) combiner

/-- The map-relevant capabilities of one stage class, as `run` sees them
through `hasattr` (src/poop.py lines 225-231): the injected map function,
an optional combiner, and whether `setup` / `postmap` hooks exist. -/
structure MapStage where
  map : String → List (String × String)
  combiner : Option (String → List String → List (String × String))
  hasSetup : Bool
  hasPostmap : Bool

/-- An observable event of one local phase execution: a lifecycle hook
starting, or one output record line being produced (printed). -/
inductive Ev where
  | setup
  | post
  | emit (line : String)
  deriving Repr, DecidableEq

/-- The output lines of the MAP branch of `run` (src/poop.py lines
226-230): map over the input lines, optionally sort-and-combine, then
encode each (key, value) pair as a tab-joined line.  `combineStep` never
fails on pair lists (`iterreduce_toRecords`), so the `getD` default is
never taken. -/
def mapPhaseLines (st : MapStage) (input : List String) : List String :=
  let out := itermap input st.map
  match st.combiner with
  | none => stream_encode out
  | some c => stream_encode ((combineStep out c).getD [])

/-- Event trace of the MAP branch of `run` (src/poop.py lines 221-239), in
the order the Python statements take effect.  `out` is a lazy generator
pipeline: `instance.postmap()` on line 231 runs before the
`for e in out: print e` loop on line 238 consumes the pipeline, so every
output line is produced after the hook returns.  (With a combiner,
`sorted(out)` on line 229 does force the map function early, but the
combiner's records and the printing of every line still happen in the
final loop.) -/
def runMapEvents (st : MapStage) (input : List String) : List Ev :=
  (if st.hasSetup then [Ev.setup] else [])
    ++ (if st.hasPostmap then [Ev.post] else [])
    ++ (mapPhaseLines st input).map Ev.emit

/-! ### The chain builder (`makejoblist`, src/poop.py lines 359-390) -/

/-- A stage descriptor: the PoopJob subclass as the chain builder and the
command synthesizer read it — its name, the optional `use_klass_output`
class attribute (`none` models the attribute being absent), the optional
`cli` mapping of extra static submission flags, whether a `reduce` method
exists, and the optional `child` link to the next descriptor.  Being an
inductive value, a descriptor chain is finite and acyclic by construction
(the source has no cycle guard; the spec calls a cyclic chain
undefined/fatal). -/
inductive Klass where
  | mk (name : String) (useKlassOutput : Option Bool)
      (cli : List (String × String)) (hasReduce : Bool)
      (child : Option Klass)

/-- The class name (`klass.__name__`, also `PoopJob.name()`). -/
def Klass.name : Klass → String
  | .mk n _ _ _ _ => n

/-- The `use_klass_output` class attribute; `none` when absent. -/
def Klass.useKlassOutput : Klass → Option Bool
  | .mk _ u _ _ _ => u

/-- The `cli` class attribute (extra static submission flags). -/
def Klass.cli : Klass → List (String × String)
  | .mk _ _ c _ _ => c

/-- Whether the class has a `reduce` method (`hasattr(klass, 'reduce')`). -/
def Klass.hasReduce : Klass → Bool
  | .mk _ _ _ r _ => r

/-- The `child` class attribute (`getchild`, src/poop.py lines 325-326). -/
def Klass.child : Klass → Option Klass
  | .mk _ _ _ _ c => c

/-- A PoopJob instance's `input` attribute: the root keeps the caller's
input list, every child gets its parent's single output string
(src/poop.py lines 107-111). -/
inductive JobInput where
  | strs (l : List String)
  | str (s : String)
  deriving Repr, DecidableEq

/-- A PoopJob instance: its class and the resolved `input` / `output`
attributes (src/poop.py lines 95-111). -/
structure Job where
  klass : Klass
  input : JobInput
  output : String

/-- Model of `'/'.join((int_data_dir, output_sha1, str(i), job.name()))`
(src/poop.py line 382): the intermediate output path of the stage at
1-based chain position `i`. -/
def intPath (dir sha : String) (i : Nat) (name : String) : String :=
  dir ++ "/" ++ sha ++ "/" ++ toString i ++ "/" ++ name

/-- The chain-building loop of `makejoblist` (src/poop.py lines 366-385)
as a recursion over the descriptor chain.  Every job enters with the
caller's global output: the root is built as `poopklass(None, input,
output)` and every child as `childklass(job, input, output)`, whose
constructor sets `input := parent.output` and `output := output`.  A job
with a child has its output rewritten to the intermediate path for
position `i` unless `job.use_klass_output` is truthy; when that class
attribute is missing, the unguarded lookup on src/poop.py line 378 raises
`AttributeError`.  The child's input is the parent's output as it stands
after the rewrite, which is never modified again. -/
def buildChain (dir sha out : String) : Klass → JobInput → Nat →
    Except PyErr (List (String × Job))
  | Klass.mk name uko cli hr none, inp, _ =>
    .ok [(name,
      { klass := Klass.mk name uko cli hr none, input := inp, output := out })]
  | Klass.mk name uko cli hr (some ck), inp, i =>
    match uko with
    | none => .error (PyErr.attributeError "use_klass_output")
    | some b =>
      let curOut := if b then out else intPath dir sha i name
      let cur : Job :=
        { klass := Klass.mk name uko cli hr (some ck), input := inp,
          output := curOut }
      (buildChain dir sha out ck (JobInput.str curOut) (i + 1)).map
        fun rest => (name, cur) :: rest

/-- Model of `makejoblist` (src/poop.py lines 359-390): build the instance list and
the intermediate-namespace base `int_data_dir/<sha1(output)>` (returned
only when the chain has more than one stage).  The SHA-1 hex digest of the
final output string, computed by the external `hashlib` library, is the
parameter `hashfn`. -/
def makejoblist (poopklass : Klass) (input : List String) (output : String)
    (int_data_dir : String) (hashfn : String → String) :
    Except PyErr (List (String × Job) × Option String) :=
  let output_sha1 := hashfn output
  (buildChain int_data_dir output_sha1 output poopklass
      (JobInput.strs input) 1).map
    fun jl =>
      (jl, if jl.length > 1
        then some (int_data_dir ++ "/" ++ output_sha1) else none)

/-- Master specification of the chain-building loop, by recursion over the
descriptor chain: a successful build yields a nonempty list whose last
instance keeps the global output, whose head carries the initial input and
class, and in which every instance followed by another one (`jl = pre ++ x
:: y :: post`) has a present `use_klass_output` attribute, an output that
is the global output when the attribute is truthy and otherwise the
intermediate path for 1-based position `i + pre.length`, and feeds exactly
that output to its successor's input. -/
theorem buildChain_spec (dir sha out : String) :
    ∀ (k : Klass) (inp : JobInput) (i : Nat) (jl : List (String × Job)),
      buildChain dir sha out k inp i = Except.ok jl →
      ((∃ p, jl.getLast? = some p ∧ p.2.output = out)
        ∧ (∃ hd tl, jl = hd :: tl ∧ hd.2.input = inp ∧ hd.2.klass = k)
        ∧ ∀ pre x y post, jl = pre ++ x :: y :: post →
            ((∃ b, x.2.klass.useKlassOutput = some b ∧
              x.2.output = if b then out
                else intPath dir sha (i + pre.length) x.2.klass.name)
              ∧ y.2.input = JobInput.str x.2.output))
  | Klass.mk name uko cli hr none, inp, i, jl, h => by
    simp only [buildChain, Except.ok.injEq] at h
    subst h
    refine ⟨⟨(name,
        { klass := Klass.mk name uko cli hr none, input := inp,
          output := out }), by simp, rfl⟩,
      ⟨_, [], rfl, rfl, rfl⟩, ?_⟩
    intro pre x y post heq
    have hlen := congrArg List.length heq
    simp at hlen
    omega
  | Klass.mk name uko cli hr (some ck), inp, i, jl, h => by
    cases uko with
    | none => simp [buildChain] at h
    | some b =>
      simp only [buildChain] at h
      cases hbc : buildChain dir sha out ck
          (JobInput.str (if b then out else intPath dir sha i name))
          (i + 1) with
      | error e => rw [hbc] at h; simp [Except.map] at h
      | ok rest =>
        rw [hbc] at h
        simp only [Except.map, Except.ok.injEq] at h
        subst h
        have IH := buildChain_spec dir sha out ck
          (JobInput.str (if b then out else intPath dir sha i name))
          (i + 1) rest hbc
        obtain ⟨⟨p, hp, hpo⟩, ⟨hd, tl, hrest, hhdi, hhdk⟩, hsplit⟩ := IH
        refine ⟨⟨p, ?_, hpo⟩, ⟨_, rest, rfl, rfl, rfl⟩, ?_⟩
        · subst hrest
          rw [List.getLast?_cons_cons]
          exact hp
        · intro pre x y post heq
          cases pre with
          | nil =>
            simp only [List.nil_append, List.cons.injEq] at heq
            obtain ⟨hx, hrest2⟩ := heq
            constructor
            · refine ⟨b, ?_, ?_⟩
              · rw [← hx]
                rfl
              · rw [← hx]
                simp [intPath, Klass.name]
            · rw [hrest2] at hrest
              have hy : hd = y := by
                simpa using congrArg (fun l => l.head?) hrest.symm
              rw [← hx, ← hy]
              exact hhdi
          | cons q pre2 =>
            simp only [List.cons_append, List.cons.injEq] at heq
            obtain ⟨hq, hrest2⟩ := heq
            obtain ⟨⟨b2, hb2, hout2⟩, hinp2⟩ := hsplit pre2 x y post hrest2
            refine ⟨⟨b2, hb2, ?_⟩, hinp2⟩
            rw [hout2]
            have hn : i + 1 + pre2.length = i + (q :: pre2).length := by
              simp only [List.length_cons]
              omega
            rw [hn]

/-! ### The command synthesizer (`PoopJob._proc_args` / `submit`,
src/poop.py lines 116-169) -/

/-- The parsed option values (`optparse` setup, src/poop.py lines 71-92)
read by the command synthesizer, together with whether `os.path.exists`
holds of the Hadoop home — the filesystem is external to the program. -/
structure Opts where
  python : String
  hadoophome : String
  hadoopHomeExists : Bool
  streaming : Option String
  extra_hadoop_opts : String

/-- Model of `PoopJob._proc_args` (src/poop.py lines 116-143): compute `jobsrc`
from `argv[0]` (line 121 — a local variable that is never returned), build
one input flag per input location and exactly one output flag, append the
class's extra `cli` flags verbatim (absent `cli` is the empty list), check
that the Hadoop home exists (raising `OptionValueError` otherwise), and
return the `hadoop` binary path with the flag list. -/
def proc_args (j : Job) (argv : List String) (opts : Opts) :
    Except PyErr (String × List String) :=
  match argv with
  | [] => Except.error PyErr.indexError
  | a0 :: _ =>
    let _jobsrc := (a0.splitOn "/").getLastD ""
    let args1 : List String :=
      match j.input with
      | JobInput.str s => ["-input", s]
      | JobInput.strs l => l.map fun s => "-input " ++ s
    let args2 := args1 ++ ["-output " ++ j.output]
    let args3 := args2 ++ j.klass.cli.map fun p =>
      "-" ++ p.1 ++ " \x22" ++ p.2 ++ "\x22"
    if opts.hadoopHomeExists then
      Except.ok (opts.hadoophome ++ "/bin/hadoop", args3)
    else
      Except.error (PyErr.optionValueError
        ("Hadoop home " ++ opts.hadoophome ++ " does not exist."))

/-- Model of `PoopJob.submit` (src/poop.py lines 145-169).  After `_proc_args`
returns, the list display on lines 151-159 evaluates its elements in
order; its third element interpolates `jobsrc` (line 155: `"-mapper '%s %s
%s %s'" % (opts.python, jobsrc, _MAP, clsname)`), but `jobsrc` is bound
nowhere in `submit` — it is a local variable of `_proc_args` only (line
121) — so every call that passes the Hadoop-home check raises `NameError`
before any mapper flag, reducer flag or command string is produced. -/
def submit (j : Job) (argv : List String) (opts : Opts) :
    Except PyErr String :=
  match proc_args j argv opts with
  | Except.error e => Except.error e
  | Except.ok _ => Except.error (PyErr.nameError "jobsrc")

/-! ### The orchestration loop of `main` (src/poop.py lines 269-281) -/

/-- The error message printed by `main` for a failing stage
(src/poop.py line 278). -/
def jobFailedMsg (code : Int) : String :=
  "Job failed (exit code " ++ toString code ++ ").  Exiting..."

/-- The non-dry submission loop of `main` (src/poop.py lines 269-281):
walk the built job list strictly in order; for each stage run its shell
command through `submit_and_monitor` (src/poop.py lines 242-247), whose
result is the `os.popen(cmd).close()` exit indicator — `none` means
success, `some code` a reported non-success status — and stop with exit
code 1 at the first failure, printing the failure message; return 0 after
the loop.  The per-stage shell command is a precomputed string and the
external subprocess is the function `execute`, `os.popen` being external
to the program.  Returns the exit code, the names of the stages actually
executed in order, and the reported failure message, if any. -/
def mainLoop (jobs : List (String × String))
    (execute : String → Option Int) : Int × List String × Option String :=
  match jobs with
  | [] => (0, [], none)
  | (name, cmd) :: rest =>
    match execute cmd with
    | some code => (1, [name], some (jobFailedMsg code))
    | none =>
      let r := mainLoop rest execute
      (r.1, name :: r.2.1, r.2.2)

/-! ### Claim theorems for the streaming protocol -/

theorem splitFirstTab_no_tab {l : List Char} (h : '\t' ∉ l) :
    splitFirstTab l = (l, none) := by
  induction l with
  | nil => rfl
  | cons c cs ih =>
    have hc : ¬c = '\t' := fun hc => h (hc ▸ List.mem_cons_self c cs)
    have hcs : '\t' ∉ cs := fun hm => h (List.mem_cons_of_mem c hm)
    simp [splitFirstTab, hc, ih hcs]

theorem splitFirstTab_append {l : List Char} (m : List Char)
    (h : '\t' ∉ l) : splitFirstTab (l ++ '\t' :: m) = (l, some m) := by
  induction l with
  | nil => simp [splitFirstTab]
  | cons c cs ih =>
    have hc : ¬c = '\t' := fun hc => h (hc ▸ List.mem_cons_self c cs)
    have hcs : '\t' ∉ cs := fun hm => h (List.mem_cons_of_mem c hm)
    simp [splitFirstTab, hc, ih hcs]

/-- C9: for every well-formed line made of a key field, a single tab, and
a value field (the key contains no tab; the value may itself contain
tabs), decoding the line with `stream_decode` and re-encoding the
resulting record reproduces the original line exactly. -/
theorem stream_decode_encode_roundtrip (k v : String)
    (hk : '\t' ∉ k.data) :
    stream_encode_rec (stream_decode (k ++ "\t" ++ v)) = k ++ "\t" ++ v := by
  have hdata : (k ++ "\t" ++ v).data = k.data ++ '\t' :: v.data := by
    simp [String.data_append]
  unfold stream_decode
  rw [hdata, splitFirstTab_append v.data hk]
  rfl

/-- Closed witness for C9: a concrete key, tab, value line — the value
itself containing a tab — decodes and re-encodes to itself. -/
theorem stream_decode_encode_roundtrip_witness :
    '\t' ∉ "key".data
      ∧ stream_encode_rec (stream_decode ("key" ++ "\t" ++ "va\tlue"))
        = "key" ++ "\t" ++ "va\tlue" :=
  ⟨by decide, stream_decode_encode_roundtrip "key" "va\tlue" (by decide)⟩

/-- C2: reduce grouping is adjacency-based, not a global group-by:
flattening the groups in order recovers the input stream (so each run's
values reach the reducer in input order), adjacent groups always carry
distinct keys (runs are maximal), the reducer is invoked once per run in
run order, and the input [(a,1),(b,1),(a,2)] yields exactly the three
groups a→[1], b→[1], a→[2], never two groups combining both a values. -/
theorem reduce_groups_adjacent_runs :
    (∀ data : List Rec, joinGroups (groupRuns data) = data)
    ∧ (∀ data : List Rec,
        List.Chain' (fun g h => g.1 ≠ h.1) (groupRuns data))
    ∧ (∀ (l : List (String × String))
        (r : String → List String → List (String × String)),
        iterreduce (toRecords l) r
          = some ((groupRuns (toRecords l)).flatMap fun g =>
              r g.1 g.2.reduceOption))
    ∧ groupRuns (toRecords [("a", "1"), ("b", "1"), ("a", "2")])
        = [("a", [some "1"]), ("b", [some "1"]), ("a", [some "2"])]
    ∧ ∀ r : String → List String → List (String × String),
        iterreduce (toRecords [("a", "1"), ("b", "1"), ("a", "2")]) r
          = some (r "a" ["1"] ++ r "b" ["1"] ++ r "a" ["2"]) := by
  refine ⟨joinGroups_groupRuns, groupRuns_chain_ne, iterreduce_toRecords,
    by decide, ?_⟩
  intro r
  show applyGroups (groupRuns (toRecords [("a", "1"), ("b", "1"), ("a", "2")])) r
    = some (r "a" ["1"] ++ r "b" ["1"] ++ r "a" ["2"])
  have hg : groupRuns (toRecords [("a", "1"), ("b", "1"), ("a", "2")])
      = [("a", [some "1"]), ("b", [some "1"]), ("a", [some "2"])] := by
    decide
  rw [hg]
  simp [applyGroups, seqValues]

/-- C10: a reduce-phase input line with no tab character decodes to a
one-field record — the whole line becomes the key and there is no second
field (in particular the record is not the key paired with an empty
value), the line is not rejected at decode time — and grouping fails with
the out-of-range `v[1]` access when the reducer consumes that record's
value. -/
theorem tabless_line_decodes_then_fails (line : String)
    (hline : '\t' ∉ line.data) (data1 data2 : List Rec)
    (r : String → List String → List (String × String)) :
    stream_decode line = (line, none)
    ∧ stream_decode line ≠ (line, some "")
    ∧ iterreduce (data1 ++ stream_decode line :: data2) r = none := by
  have hdec : stream_decode line = (line, none) := by
    unfold stream_decode
    rw [splitFirstTab_no_tab hline]
    rfl
  refine ⟨hdec, by simp [hdec], ?_⟩
  rw [hdec]
  exact iterreduce_of_mem_none (k := line) r (by simp)

/-- Closed witness for C10: the concrete tab-less line "abc" among
surrounding well-formed records. -/
theorem tabless_line_decodes_then_fails_witness :
    '\t' ∉ "abc".data
      ∧ stream_decode "abc" = ("abc", none)
      ∧ iterreduce ([("k", some "1")] ++ stream_decode "abc" :: [])
          (fun _ _ => []) = none := by
  have h := tabless_line_decodes_then_fails "abc" (by decide)
    [("k", some "1")] [] (fun _ _ => [])
  exact ⟨by decide, h.1, h.2.2⟩

/-- C3: when a stage declares a combine capability the map phase buffers
all map-emitted pairs, sorts them with the total deterministic tuple
order, partitions the sorted sequence into maximal runs of equal key and
invokes the combiner once per run; consequently the combine step's output
is identical for any two map outputs that are permutations of each other.
-/
theorem combine_perm_invariant :
    (∀ out : List (String × String), List.Sorted pairLe (pySorted out))
    ∧ (∀ (out : List (String × String))
        (c : String → List String → List (String × String)),
        combineStep out c
          = some ((groupRuns (toRecords (pySorted out))).flatMap fun g =>
              c g.1 g.2.reduceOption))
    ∧ ∀ (c : String → List String → List (String × String))
        (out1 out2 : List (String × String)), out1.Perm out2 →
        combineStep out1 c = combineStep out2 c := by
  refine ⟨fun out => List.sorted_insertionSort pairLe out,
    fun out c => iterreduce_toRecords _ c, ?_⟩
  intro c out1 out2 h
  unfold combineStep
  rw [pySorted_eq_of_perm h]

/-- Closed witness for C3: two concrete permuted map outputs give the same
combine result. -/
theorem combine_perm_invariant_witness :
    ([("b", "2"), ("a", "1"), ("a", "3")] : List (String × String)).Perm
      [("a", "3"), ("a", "1"), ("b", "2")]
    ∧ combineStep [("b", "2"), ("a", "1"), ("a", "3")]
        (fun k vs => [(k, vs.foldl (· ++ ·) "")])
      = combineStep [("a", "3"), ("a", "1"), ("b", "2")]
        (fun k vs => [(k, vs.foldl (· ++ ·) "")]) :=
  ⟨by decide, combine_perm_invariant.2.2 _ _ _ (by decide)⟩

/-- The stage used to evaluate the post-map hook ordering: a map function
emitting one (line, "1") pair per input line, a `postmap` hook, no
combiner, no `setup` hook. -/
def postmapStage : MapStage :=
  { map := fun line => [(line, "1")]
    combiner := none
    hasSetup := false
    hasPostmap := true }

/-- C4 (evaluation at the failing input): on input ["x"], the MAP branch
of `run` produces the trace [post, emit "x\t1"] — the `postmap` hook is
called on src/poop.py line 231, before the `for e in out: print e` loop on
line 238 consumes the lazy generator pipeline, so the phase's only record
is produced after the post hook has started and returned, contradicting
the claimed ordering. -/
theorem postmap_hook_precedes_record_production :
    runMapEvents postmapStage ["x"] = [Ev.post, Ev.emit "x\t1"] := by
  rfl

/-! ### Claim theorems for the chain builder -/

theorem makejoblist_ok {k : Klass} {input : List String}
    {output dir : String} {hashfn : String → String}
    {jl : List (String × Job)} {intd : Option String}
    (h : makejoblist k input output dir hashfn = Except.ok (jl, intd)) :
    buildChain dir (hashfn output) output k (JobInput.strs input) 1
      = Except.ok jl
    ∧ intd = (if jl.length > 1
        then some (dir ++ "/" ++ hashfn output) else none) := by
  have h2 : Except.map
      (fun jl => (jl, if jl.length > 1
        then some (dir ++ "/" ++ hashfn output) else none))
      (buildChain dir (hashfn output) output k (JobInput.strs input) 1)
    = Except.ok (jl, intd) := h
  cases hbc : buildChain dir (hashfn output) output k
      (JobInput.strs input) 1 with
  | error e =>
    rw [hbc] at h2
    simp [Except.map] at h2
  | ok jl2 =>
    rw [hbc] at h2
    simp only [Except.map, Except.ok.injEq, Prod.mk.injEq] at h2
    obtain ⟨h1, h3⟩ := h2
    subst h1
    exact ⟨rfl, h3.symm⟩

/-- C1: for every chain the builder returns — with the root instantiated
on the global input and output and N ≥ 1 stage instances — the last
instance's output equals the requested final output, and every
non-terminal instance (one followed by another instance in the list) has
its output rewritten to the deterministic intermediate-namespace path for
its 1-based position, except exactly those whose class requests keeping
its declared output through a truthy `use_klass_output`, which keep the
global output they were constructed with. -/
theorem chain_last_output_and_rewrites (k : Klass) (input : List String)
    (output dir : String) (hashfn : String → String)
    (jl : List (String × Job)) (intd : Option String)
    (h : makejoblist k input output dir hashfn = Except.ok (jl, intd)) :
    (∃ p, jl.getLast? = some p ∧ p.2.output = output)
    ∧ ∀ pre x y post, jl = pre ++ x :: y :: post →
        ∃ b, x.2.klass.useKlassOutput = some b ∧
          x.2.output = if b then output
            else intPath dir (hashfn output) (1 + pre.length)
              x.2.klass.name := by
  have hbc := (makejoblist_ok h).1
  have hs := buildChain_spec dir (hashfn output) output k
    (JobInput.strs input) 1 jl hbc
  exact ⟨hs.1, fun pre x y post heq => (hs.2.2 pre x y post heq).1⟩

/-- A concrete terminal stage descriptor (it has a `reduce` method and no
`child`). -/
def klassB : Klass := Klass.mk "B" none [] true none

/-- A concrete root descriptor chained to `klassB`, with
`use_klass_output` set falsy. -/
def klassA : Klass := Klass.mk "A" (some false) [] false (some klassB)

/-- The root instance of the concrete two-stage chain, after its output
was rewritten to the intermediate path. -/
def jobA : Job :=
  { klass := klassA, input := JobInput.strs ["in"],
    output := "/__poop/H/1/A" }

/-- The terminal instance of the concrete two-stage chain. -/
def jobB : Job :=
  { klass := klassB, input := JobInput.str "/__poop/H/1/A",
    output := "out" }

/-- The concrete two-stage chain built from `klassA` for input ["in"],
output "out", base directory "/__poop" and digest function constant "H".
-/
def chainAB : List (String × Job) := [("A", jobA), ("B", jobB)]

/-- Closed witness for C1: on the concrete two-stage chain the builder
succeeds, the last instance's output is the requested "out", and the
non-terminal first instance was rewritten to the intermediate path. -/
theorem chain_last_output_and_rewrites_witness :
    makejoblist klassA ["in"] "out" "/__poop" (fun _ => "H")
      = Except.ok (chainAB, some "/__poop/H")
    ∧ (∃ p, chainAB.getLast? = some p ∧ p.2.output = "out")
    ∧ ∃ b, jobA.klass.useKlassOutput = some b ∧
        jobA.output = if b then "out"
          else intPath "/__poop" "H" 1 "A" := by
  have hok : makejoblist klassA ["in"] "out" "/__poop" (fun _ => "H")
      = Except.ok (chainAB, some "/__poop/H") := by
    rfl
  have hc := chain_last_output_and_rewrites klassA ["in"] "out" "/__poop"
    (fun _ => "H") chainAB (some "/__poop/H") hok
  exact ⟨hok, hc.1, hc.2 [] ("A", jobA) ("B", jobB) [] rfl⟩

/-- C7: in every chain the builder returns, each non-root instance's
input equals the output of the immediately preceding instance, as that
output stands after any intermediate rewriting of the predecessor (the
child is constructed with `childklass(job, input, output)` after the
parent's rewrite, src/poop.py lines 378-384, and the parent's output is
never modified again). -/
theorem chain_wiring (k : Klass) (input : List String)
    (output dir : String) (hashfn : String → String)
    (jl : List (String × Job)) (intd : Option String)
    (h : makejoblist k input output dir hashfn = Except.ok (jl, intd)) :
    ∀ pre x y post, jl = pre ++ x :: y :: post →
      y.2.input = JobInput.str x.2.output := by
  have hbc := (makejoblist_ok h).1
  have hs := buildChain_spec dir (hashfn output) output k
    (JobInput.strs input) 1 jl hbc
  exact fun pre x y post heq => (hs.2.2 pre x y post heq).2

/-- Closed witness for C7: in the concrete two-stage chain the terminal
instance's input is exactly the root's rewritten output. -/
theorem chain_wiring_witness :
    makejoblist klassA ["in"] "out" "/__poop" (fun _ => "H")
      = Except.ok (chainAB, some "/__poop/H")
    ∧ jobB.input = JobInput.str jobA.output := by
  have hok : makejoblist klassA ["in"] "out" "/__poop" (fun _ => "H")
      = Except.ok (chainAB, some "/__poop/H") := by
    rfl
  exact ⟨hok, chain_wiring klassA ["in"] "out" "/__poop" (fun _ => "H")
    chainAB (some "/__poop/H") hok [] ("A", jobA) ("B", jobB) [] rfl⟩

theorem makejoblist_intdata {k : Klass} {input : List String}
    {output dir : String} {hashfn : String → String}
    {jl : List (String × Job)} {d : String}
    (h : makejoblist k input output dir hashfn = Except.ok (jl, some d)) :
    d = dir ++ "/" ++ hashfn output := by
  have h2 := (makejoblist_ok h).2
  by_cases hl : jl.length > 1
  · rw [if_pos hl] at h2
    simpa using h2
  · rw [if_neg hl] at h2
    simp at h2

theorem string_append_cancel_left {a b c : String} (h : a ++ b = a ++ c) :
    b = c := by
  have hd := congrArg String.data h
  simp only [String.data_append] at hd
  exact String.ext (List.append_cancel_left hd)

/-- C8: the intermediate location of the non-terminal stage at 1-based
position i of a chain is base-directory/H(final-output)/i/stage-name and
the namespace returned for a multi-stage chain is
base-directory/H(final-output), where the digest H is applied to the
final-output string alone; hence two chains built with the same
final-output string receive the identical namespace, and two builds whose
final outputs have different digests (no digest collision) receive
different namespaces. -/
theorem intermediate_namespace_layout (dir : String)
    (hashfn : String → String) :
    (∀ (k : Klass) (input : List String) (output : String)
      (jl : List (String × Job)) (intd : Option String),
      makejoblist k input output dir hashfn = Except.ok (jl, intd) →
      (∀ pre x y post, jl = pre ++ x :: y :: post →
        x.2.klass.useKlassOutput = some false →
        x.2.output = dir ++ "/" ++ hashfn output ++ "/"
          ++ toString (1 + pre.length) ++ "/" ++ x.2.klass.name)
      ∧ (jl.length > 1 → intd = some (dir ++ "/" ++ hashfn output)))
    ∧ ∀ (k1 k2 : Klass) (in1 in2 : List String) (o1 o2 : String)
        (jl1 jl2 : List (String × Job)) (d1 d2 : String),
        makejoblist k1 in1 o1 dir hashfn = Except.ok (jl1, some d1) →
        makejoblist k2 in2 o2 dir hashfn = Except.ok (jl2, some d2) →
        (o1 = o2 → d1 = d2) ∧ (hashfn o1 ≠ hashfn o2 → d1 ≠ d2) := by
  constructor
  · intro k input output jl intd h
    constructor
    · intro pre x y post heq huko
      have hbc := (makejoblist_ok h).1
      have hs := buildChain_spec dir (hashfn output) output k
        (JobInput.strs input) 1 jl hbc
      obtain ⟨b, hb, hout⟩ := (hs.2.2 pre x y post heq).1
      rw [huko] at hb
      have hbf : b = false := by
        simpa using hb.symm
      subst hbf
      simpa [intPath] using hout
    · intro hl
      rw [(makejoblist_ok h).2, if_pos hl]
  · intro k1 k2 in1 in2 o1 o2 jl1 jl2 d1 d2 h1 h2
    have hd1 := makejoblist_intdata h1
    have hd2 := makejoblist_intdata h2
    constructor
    · intro ho
      rw [hd1, hd2, ho]
    · intro hne heq
      rw [hd1, hd2] at heq
      exact hne (string_append_cancel_left heq)

/-- The two-stage chain built with the identity digest and final output
"o1". -/
def chainO1 : List (String × Job) :=
  [("A", { klass := klassA, input := JobInput.strs ["in"],
           output := "/__poop/o1/1/A" }),
   ("B", { klass := klassB, input := JobInput.str "/__poop/o1/1/A",
           output := "o1" })]

/-- The two-stage chain built with the identity digest and final output
"o2". -/
def chainO2 : List (String × Job) :=
  [("A", { klass := klassA, input := JobInput.strs ["in"],
           output := "/__poop/o2/1/A" }),
   ("B", { klass := klassB, input := JobInput.str "/__poop/o2/1/A",
           output := "o2" })]

/-- Closed witness for C8: two concrete builds with distinct final
outputs whose digests differ receive distinct namespaces, and a build's
namespace is base-directory/digest. -/
theorem intermediate_namespace_layout_witness :
    makejoblist klassA ["in"] "o1" "/__poop" (fun s => s)
      = Except.ok (chainO1, some "/__poop/o1")
    ∧ makejoblist klassA ["in"] "o2" "/__poop" (fun s => s)
      = Except.ok (chainO2, some "/__poop/o2")
    ∧ ("o1" : String) ≠ "o2"
    ∧ ("/__poop/o1" : String) ≠ "/__poop/o2" := by
  have h1 : makejoblist klassA ["in"] "o1" "/__poop" (fun s => s)
      = Except.ok (chainO1, some "/__poop/o1") := by
    rfl
  have h2 : makejoblist klassA ["in"] "o2" "/__poop" (fun s => s)
      = Except.ok (chainO2, some "/__poop/o2") := by
    rfl
  refine ⟨h1, h2, by decide, ?_⟩
  exact ((intermediate_namespace_layout "/__poop" (fun s => s)).2
    klassA klassA ["in"] ["in"] "o1" "o2" chainO1 chainO2
    "/__poop/o1" "/__poop/o2" h1 h2).2 (by decide)

/-! ### Claim theorems for the command synthesizer and the orchestrator -/

/-- A concrete option record with an existing Hadoop home (the defaults
of the option parser, src/poop.py lines 71-92). -/
def optsDefault : Opts :=
  { python := "python", hadoophome := "/usr/local/hadoop",
    hadoopHomeExists := true, streaming := none,
    extra_hadoop_opts := "" }

/-- C5 (evaluation at the failing input): `submit`, called with
`argv[0] = "wc.py"` and an existing Hadoop home on a stage with a reduce
capability (`jobB`) and on one without (`jobA`), raises `NameError` on
the unbound `jobsrc` (src/poop.py line 155) in both cases: no command
string is synthesized, so the claimed mapper flag, the REDUCE-form
reducer flag and the `-numReduceTasks 0` alternative are never produced.
-/
theorem submit_raises_nameerror :
    submit jobB ["wc.py"] optsDefault
      = Except.error (PyErr.nameError "jobsrc")
    ∧ submit jobA ["wc.py"] optsDefault
      = Except.error (PyErr.nameError "jobsrc") :=
  ⟨rfl, rfl⟩

/-- C6: the orchestration loop of `main` executes stages strictly in
chain order: it executes exactly the stages up to and including the first
one whose subprocess reports a non-success exit status — no later stage
is executed — and returns exit code 1 with the reported stage failure
message in that case; a fully successful run executes every stage in
order and returns exit code 0 with no failure. -/
theorem mainLoop_stops_at_first_failure (jobs : List (String × String))
    (execute : String → Option Int) :
    mainLoop jobs execute
      = match jobs.dropWhile (fun j => (execute j.2).isNone) with
        | [] => (0, jobs.map Prod.fst, none)
        | b :: _ =>
          (1, (jobs.takeWhile fun j => (execute j.2).isNone).map Prod.fst
                ++ [b.1],
            (execute b.2).map jobFailedMsg) := by
  induction jobs with
  | nil => rfl
  | cons j rest ih =>
    obtain ⟨name, cmd⟩ := j
    cases hx : execute cmd with
    | some code =>
      rw [List.dropWhile_cons_of_neg (by simp [hx]),
        List.takeWhile_cons_of_neg (by simp [hx])]
      simp [mainLoop, hx]
    | none =>
      have h1 : mainLoop ((name, cmd) :: rest) execute
          = ((mainLoop rest execute).1, name :: (mainLoop rest execute).2.1,
             (mainLoop rest execute).2.2) := by
        simp [mainLoop, hx]
      rw [h1, ih, List.dropWhile_cons_of_pos (by simp [hx]),
        List.takeWhile_cons_of_pos (by simp [hx])]
      cases rest.dropWhile (fun j => (execute j.2).isNone) with
      | nil => simp
      | cons b tl => simp
